import Mathlib

/-!
# Verification of the enterprise nano9 GWB analysis

A shallow embedding, in Lean 4, of the model-building, likelihood and
sampler-configuration code exercised by `docs/_static/notebooks/nano9.ipynb`
(the NANOGrav 9-year stochastic gravitational-wave-background analysis),
together with proofs about it.  The notebook's own code (the PAL2 noise-file
parser, the jump-group construction, the upper-limit extraction) is embedded
directly from the source; the `enterprise` library internals it invokes
(`parameter`, `signal_base.PTA`) are not part of this repository's files and
are modelled from the specification where a claim needs them.
-/

namespace Nano9

open Matrix

/-! ## Jump groups (notebook cell: sampler set-up)

The notebook builds the sampler's jump groups as

    groups  = [range(0, ndim)]
    groups.extend(map(list, zip(range(0,ndim,2), range(1,ndim,2))))
    groups.extend([[36]])

`range(0, ndim, 2)` has `(ndim+1)/2` elements `0, 2, 4, ...` and
`range(1, ndim, 2)` has `ndim/2` elements `1, 3, 5, ...`; `zip` truncates to
the shorter list. -/

/-- The paired jump groups `zip(range(0,ndim,2), range(1,ndim,2))`, each pair
materialized as a two-element list (Python's `map(list, ...)`). -/
def pairGroups (ndim : Nat) : List (List Nat) :=
  (List.zip (List.range' 0 ((ndim + 1) / 2) 2) (List.range' 1 (ndim / 2) 2)).map
    fun p => [p.1, p.2]

/-- The full jump-group list handed to the sampler: one group spanning all
coordinates, then the consecutive pairs, then the hardcoded singleton `[36]`. -/
def jumpGroups (ndim : Nat) : List (List Nat) :=
  [List.range ndim] ++ pairGroups ndim ++ [[36]]

/-! ## PAL2 noise-file parsing (notebook cell: `get_noise_from_pal2`)

The Python source, line by line:

    def get_noise_from_pal2(noisefile):
        psrname = noisefile.split('/')[-1].split('_noise.txt')[0]
        fin = open(noisefile, 'r')
        lines = fin.readlines()
        params = {}
        for line in lines:
            ln = line.split()
            if 'efac' in line:
                par = 'efac'
                flag = ln[0].split('efac-')[-1]
            elif 'equad' in line:
                par = 'log10_equad'
                flag = ln[0].split('equad-')[-1]
            elif 'jitter_q' in line:
                par = 'log10_ecorr'
                flag = ln[0].split('jitter_q-')[-1]
            elif 'RN-Amplitude' in line:
                par = 'log10_A'
                flag = ''
            elif 'RN-spectral-index' in line:
                par = 'gamma'
                flag = ''
            else:
                break
            if flag:
                name = [psrname, flag, par]
            else:
                name = [psrname, par]
            pname = '_'.join(name)
            params.update({pname: float(ln[1])})
        return params

We embed the file as the pulsar name plus the list of its lines, with strings
represented as `List Char`; parameter values are kept as their raw second
token (the `float(ln[1])` conversion does not affect the key set the claims
are about).  Python's whitespace `split()` is modelled as splitting on the
space character and dropping empty tokens. -/

/-- The left-to-right non-overlapping separator scan behind Python's
`str.split(sep)`, with a fuel argument bounding the number of characters
consumed so the recursion is structural. -/
def pySplitAux (sep : List Char) : Nat → List Char → List Char → List (List Char)
  | _, acc, [] => [acc.reverse]
  | 0, acc, l => [acc.reverse ++ l]
  | fuel + 1, acc, c :: rest =>
    if sep <+: (c :: rest) then
      acc.reverse :: pySplitAux sep fuel [] ((c :: rest).drop sep.length)
    else
      pySplitAux sep fuel (c :: acc) rest

/-- Python's `l.split(sep)` for a non-empty separator. -/
def pySplit (l sep : List Char) : List (List Char) :=
  pySplitAux sep l.length [] l

/-- Python's `pat in line` substring test, for a non-empty pattern:
`line.split(pat)` has more than one part iff `pat` occurs in `line`. -/
def containsSub (line pat : List Char) : Bool :=
  (pySplit line pat).length > 1

/-- The five substrings the `if/elif` chain recognizes, and the separators the
backend flag is extracted with. -/
def kwEfac : List Char := "efac".toList

def kwEquad : List Char := "equad".toList

def kwJitterQ : List Char := "jitter_q".toList

def kwRNAmp : List Char := "RN-Amplitude".toList

def kwRNSpec : List Char := "RN-spectral-index".toList

def sepEfac : List Char := "efac-".toList

def sepEquad : List Char := "equad-".toList

def sepJitterQ : List Char := "jitter_q-".toList

/-- The parameter-quantity names assigned to `par` by the five arms. -/
def parLog10Equad : List Char := "log10_equad".toList

def parLog10Ecorr : List Char := "log10_ecorr".toList

def parLog10A : List Char := "log10_A".toList

def parGamma : List Char := "gamma".toList

/-- The `'_'` joiner of `'_'.join(name)`. -/
def underscore : List Char := "_".toList

/-- Python's `line.split()` (whitespace tokenization, modelled on spaces). -/
def pyWords (line : List Char) : List (List Char) :=
  (pySplit line [' ']).filter fun w => w ≠ []

/-- `ln[0].split(sep)[-1]`: the last part of the first token split on `sep`. -/
def flagOf (ln : List (List Char)) (sep : List Char) : List Char :=
  (pySplit (ln.headD []) sep).getLastD []

/-- `'_'.join(name)` where `name` is `[psrname, flag, par]` when `flag` is
non-empty (Python's `if flag:`) and `[psrname, par]` otherwise. -/
def pal2Key (psrname flag par : List Char) : List Char :=
  if flag ≠ [] then List.intercalate underscore [psrname, flag, par]
  else List.intercalate underscore [psrname, par]

/-- Whether a line is recognized by one of the five `if/elif` arms. -/
def recognizedLine (line : List Char) : Bool :=
  containsSub line kwEfac || containsSub line kwEquad ||
    containsSub line kwJitterQ || containsSub line kwRNAmp ||
    containsSub line kwRNSpec

/-- The loop body of `get_noise_from_pal2`: processes lines in order and stops
(`break`) at the first line no arm recognizes. -/
def getNoiseFromPal2 (psrname : List Char) :
    List (List Char) → List (List Char × List Char)
  | [] => []
  | line :: rest =>
    let ln := pyWords line
    if containsSub line kwEfac then
      (pal2Key psrname (flagOf ln sepEfac) kwEfac, ln.getD 1 [])
        :: getNoiseFromPal2 psrname rest
    else if containsSub line kwEquad then
      (pal2Key psrname (flagOf ln sepEquad) parLog10Equad, ln.getD 1 [])
        :: getNoiseFromPal2 psrname rest
    else if containsSub line kwJitterQ then
      (pal2Key psrname (flagOf ln sepJitterQ) parLog10Ecorr, ln.getD 1 [])
        :: getNoiseFromPal2 psrname rest
    else if containsSub line kwRNAmp then
      (pal2Key psrname [] parLog10A, ln.getD 1 []) :: getNoiseFromPal2 psrname rest
    else if containsSub line kwRNSpec then
      (pal2Key psrname [] parGamma, ln.getD 1 []) :: getNoiseFromPal2 psrname rest
    else []

/-! ## Parameters and priors

Modelled from the spec: the `enterprise.signals.parameter` module is not among
this repository's files; the notebook only constructs `Uniform`, `LinearExp`
and `Constant` parameters.  Per the spec, `log_density(x)` returns the log
prior density at `x`, or -infinity outside support; `LinearExp` has density
`ln(10)·10^x / (10^high − 10^low)` on `[low, high]` and `0` outside;
`Uniform(low, high)` is the uniform density on `[low, high]`. -/

/-- Modelled from the spec: the density of a `LinearExp(low, high)` prior,
proportional to `10^x` on `[low, high]` and `0` outside. -/
noncomputable def linearExpPdf (low high x : ℝ) : ℝ :=
  if low ≤ x ∧ x ≤ high then
    Real.log 10 * (10 : ℝ) ^ x / ((10 : ℝ) ^ high - (10 : ℝ) ^ low)
  else 0

/-- Modelled from the spec: the density of a `Uniform(low, high)` prior. -/
noncomputable def uniformPdf (low high x : ℝ) : ℝ :=
  if low ≤ x ∧ x ≤ high then 1 / (high - low) else 0

/-- Modelled from the spec: the prior kinds the notebook's model draws from
the sampler's coordinate space (`Constant` parameters never appear in the
free-parameter registry). -/
inductive Prior
  | uniform (low high : ℝ)
  | linearExp (low high : ℝ)

/-- The declared support of a prior. -/
def inSupport : Prior → ℝ → Prop
  | .uniform low high, x => low ≤ x ∧ x ≤ high
  | .linearExp low high, x => low ≤ x ∧ x ≤ high

noncomputable instance (p : Prior) (x : ℝ) : Decidable (inSupport p x) := by
  cases p <;> exact instDecidableAnd

/-- The log prior density at an in-support point. -/
noncomputable def realLogPdf : Prior → ℝ → ℝ
  | .uniform low high, x => Real.log (uniformPdf low high x)
  | .linearExp low high, x => Real.log (linearExpPdf low high x)

/-- Modelled from the spec: `log_density(x)` — the log prior density at `x`,
or -infinity outside the declared support (an extended real, since -infinity
is a steady-state return value, not an exception). -/
noncomputable def logDensity (p : Prior) (x : ℝ) : EReal :=
  if inSupport p x then ((realLogPdf p x : ℝ) : EReal) else ⊥

/-- A named free parameter of the PTA's registry. -/
structure Param where
  name : String
  prior : Prior

/-- Modelled from the spec: `get_lnprior(x)` sums per-parameter log-density
over the PTA's parameter registry; a -infinity summand (an out-of-support
value) makes the whole sum -infinity. -/
noncomputable def get_lnprior (ps : List Param) (x : String → ℝ) : EReal :=
  (ps.map fun p => logDensity p.prior (x p.name)).sum

/-! ## Parameter resolution at likelihood evaluation (C4)

Modelled from the spec: `get_lnlikelihood(x)` resolves every parameter of the
model — a free parameter from the mapping `x`, a `Constant` parameter from its
fixed value if set, otherwise from the defaults registered once via
`set_default_params` — and fails with `MissingParameterError` iff some
required parameter cannot be resolved; the failure is surfaced to the caller
of that call. -/

/-- A parameter slot of the model: free, or `Constant` with an optional fixed
value (`Constant()` in the notebook carries none and is later resolved from
the noise-file defaults; `Constant(4.33)` carries one). -/
inductive PtaParam
  | free (name : String)
  | const (name : String) (value : Option ℝ)

/-- The name of a parameter slot. -/
def PtaParam.name : PtaParam → String
  | .free n => n
  | .const n _ => n

/-- The error raised when a required parameter cannot be resolved. -/
inductive MissingParameterError
  | missing (name : String)

/-- Resolving one parameter: free parameters from `x`, fixed `Constant`s from
their own value, unfixed `Constant`s from the registered defaults. -/
def resolveParam (x defaults : String → Option ℝ) : PtaParam → Option ℝ
  | .free n => x n
  | .const _ (some v) => some v
  | .const n none => defaults n

/-- Resolving the whole registry, failing on the first unresolvable slot. -/
def resolveAll (x defaults : String → Option ℝ) :
    List PtaParam → Except MissingParameterError (List ℝ)
  | [] => .ok []
  | p :: ps =>
    match resolveParam x defaults p with
    | none => .error (.missing p.name)
    | some v => (resolveAll x defaults ps).map fun vs => v :: vs

/-- Modelled from the spec: `get_lnlikelihood(x)` — resolve every parameter,
then evaluate the (here abstract) likelihood on the resolved vector. -/
def get_lnlikelihood (ps : List PtaParam) (lnlike : List ℝ → ℝ)
    (x defaults : String → Option ℝ) : Except MissingParameterError ℝ :=
  (resolveAll x defaults ps).map lnlike

/-! ## Parameter sharing across series (C5)

Modelled from the spec: a `Parameter` instance constructed once and passed by
reference into the `Signal` constructors of every pulsar is the *same* owned
object.  We model instances as slots of a heap keyed by instance identity;
each series records which instances its signals reference, and its
log-likelihood contribution is a function of the values its instances hold.
Sharing `log10_A_gw` across series is recording the same instance id in every
series' list. -/

/-- One series (pulsar) of the PTA: the parameter instances its signals hold
references to, in slot order, and its log-likelihood contribution as a
function of those instances' current values. -/
structure GPSeries where
  paramIds : List Nat
  contrib : List ℝ → ℝ

/-- The series' log-likelihood contribution under a heap of instance values. -/
def seriesContribution (s : GPSeries) (heap : Nat → ℝ) : ℝ :=
  s.contrib (s.paramIds.map heap)

/-- Mutating one parameter instance's value (e.g. the sampler writing the
shared `log10_A_gw`). -/
def setParam (heap : Nat → ℝ) (i : Nat) (v : ℝ) : Nat → ℝ :=
  Function.update heap i v

/-! ## The Woodbury-form likelihood (C1)

Modelled from the spec: the PTA likelihood engine (`signal_base.PTA`, invoked
as `pta.get_lnlikelihood` in the notebook) is not among this repository's
files.  Per the spec, for each series with residual vector `r`, GP basis `F`,
prior covariance `Φ` and white-noise covariance `N` it computes

    Σ = Φ⁻¹ + Fᵀ N⁻¹ F
    loglike = -0.5 [ rᵀN⁻¹r − (FᵀN⁻¹r)ᵀ Σ⁻¹ (FᵀN⁻¹r) + log|N| + log|Φ| + log|Σ| ]

and the brute-force reference forms and inverts the observation-sized dense
covariance `N + F Φ Fᵀ`.  Arithmetic is embedded over `ℝ`, so the claimed
1e-6 relative agreement is established in the strongest form: exact
equality. -/

/-- The GP-basis-sized matrix `Σ = Φ⁻¹ + Fᵀ N⁻¹ F` that the Woodbury form
factors instead of the dense covariance. -/
noncomputable def gpSigma {n m : Type*} [Fintype n] [Fintype m]
    [DecidableEq n] [DecidableEq m]
    (F : Matrix n m ℝ) (Φ : Matrix m m ℝ) (N : Matrix n n ℝ) : Matrix m m ℝ :=
  Φ⁻¹ + Fᵀ * N⁻¹ * F

/-- Modelled from the spec: one series' Woodbury-form log-likelihood, as
computed by `get_lnlikelihood` (additive constants are shared with the dense
reference and omitted on both sides). -/
noncomputable def woodburyLnlike {n m : Type*} [Fintype n] [Fintype m]
    [DecidableEq n] [DecidableEq m]
    (r : n → ℝ) (F : Matrix n m ℝ) (Φ : Matrix m m ℝ) (N : Matrix n n ℝ) : ℝ :=
  -(1 / 2) * ((r ⬝ᵥ (N⁻¹ *ᵥ r))
    - ((Fᵀ * N⁻¹) *ᵥ r) ⬝ᵥ ((gpSigma F Φ N)⁻¹ *ᵥ ((Fᵀ * N⁻¹) *ᵥ r))
    + Real.log N.det + Real.log Φ.det + Real.log (gpSigma F Φ N).det)

/-- The brute-force reference: invert the full observation-sized covariance
`N + F Φ Fᵀ` and take its log-determinant. -/
noncomputable def denseLnlike {n m : Type*} [Fintype n] [Fintype m]
    [DecidableEq n] [DecidableEq m]
    (r : n → ℝ) (F : Matrix n m ℝ) (Φ : Matrix m m ℝ) (N : Matrix n n ℝ) : ℝ :=
  -(1 / 2) * ((r ⬝ᵥ ((N + F * Φ * Fᵀ)⁻¹ *ᵥ r)) + Real.log (N + F * Φ * Fᵀ).det)

/-! ## Upper-limit extraction (C10)

The notebook's final cell computes

    upper = 10**np.percentile(chain[burn:, -5], q=0.95)

`np.percentile`'s `q` is on a 0–100 scale; its default interpolation places
the requested quantile at fractional position `q/100 · (n−1)` into the sorted
samples and interpolates linearly between the two bracketing order
statistics.  We model the sorted samples by an insertion sort over `ℚ`. -/

/-- Insertion into an ascending-sorted list. -/
def insertSorted (x : ℚ) : List ℚ → List ℚ
  | [] => [x]
  | y :: ys => if x ≤ y then x :: y :: ys else y :: insertSorted x ys

/-- Ascending sort (modelling the sort inside `np.percentile`). -/
def sortAsc (l : List ℚ) : List ℚ := l.foldr insertSorted []

/-- `np.percentile(a, q)` with the default linear interpolation: position
`q/100 · (n−1)` into the sorted data, interpolated between the bracketing
elements. -/
def npPercentile (a : List ℚ) (q : ℚ) : ℚ :=
  let s := sortAsc a
  let n := s.length
  let pos : ℚ := q * ((n : ℚ) - 1) / 100
  let i : ℤ := ⌊pos⌋
  let lo := s.getD i.toNat 0
  let hi := s.getD (i.toNat + 1) lo
  lo + (pos - (i : ℚ)) * (hi - lo)

/-- The notebook's reported upper limit, `10**np.percentile(chain, q=0.95)`,
on the post-burn-in chain column of log-amplitudes. -/
noncomputable def upperLimit (chain : List ℚ) : ℝ :=
  (10 : ℝ) ^ ((npPercentile chain 0.95 : ℚ) : ℝ)

/-! ## Theorems -/

/-- The pair groups are exactly `[2*i, 2*i+1]` for `i < ndim/2`. -/
theorem pairGroups_eq (ndim : Nat) :
    pairGroups ndim = (List.range (ndim / 2)).map fun i => [2 * i, 2 * i + 1] := by
  unfold pairGroups
  have hzip : List.zip (List.range' 0 ((ndim + 1) / 2) 2) (List.range' 1 (ndim / 2) 2)
      = (List.range (ndim / 2)).map fun i => (2 * i, 2 * i + 1) := by
    apply List.ext_getElem
    · simp [List.length_zip]
      omega
    · intro i h₁ h₂
      simp only [List.getElem_zip, List.getElem_range', List.getElem_map, List.getElem_range]
      rw [Prod.mk.injEq]
      constructor <;> omega
  rw [hzip, List.map_map]
  rfl

/-- Membership in some pair group, characterized. -/
theorem mem_pairGroups_iff (ndim j : Nat) :
    (∃ g ∈ pairGroups ndim, j ∈ g) ↔ j < 2 * (ndim / 2) := by
  rw [pairGroups_eq]
  constructor
  · rintro ⟨g, hg, hj⟩
    simp only [List.mem_map, List.mem_range] at hg
    obtain ⟨i, hi, rfl⟩ := hg
    simp only [List.mem_cons, List.mem_singleton, List.not_mem_nil, or_false] at hj
    rcases hj with rfl | rfl <;> omega
  · intro hj
    refine ⟨[2 * (j / 2), 2 * (j / 2) + 1], ?_, ?_⟩
    · simp only [List.mem_map, List.mem_range]
      exact ⟨j / 2, by omega, rfl⟩
    · simp only [List.mem_cons, List.mem_singleton]
      omega

theorem intercalate_two (a b : List Char) :
    List.intercalate underscore [a, b] = a ++ underscore ++ b := by
  simp [List.intercalate, List.intersperse, List.append_assoc]

theorem intercalate_three (a b c : List Char) :
    List.intercalate underscore [a, b, c] = a ++ underscore ++ b ++ underscore ++ c := by
  simp [List.intercalate, List.intersperse, List.append_assoc]

/-- Each produced key is the pulsar name, an optional non-empty backend flag,
and the quantity name, joined by single underscores. -/
theorem pal2Key_shape (psrname flag par : List Char) :
    (flag ≠ [] ∧ pal2Key psrname flag par = psrname ++ underscore ++ flag ++ underscore ++ par)
    ∨ (flag = [] ∧ pal2Key psrname flag par = psrname ++ underscore ++ par) := by
  unfold pal2Key
  by_cases h : flag = []
  · right
    simp [h, intercalate_two]
  · left
    simp [h, intercalate_three]

/-- C6 (counterexample): the jump groups are not pairwise disjoint.  At
`ndim = 37` (the notebook's dimension: 18 pulsars with 2 red-noise parameters
each, plus the shared GWB amplitude), the leading full-span group and the
first pair group `[0, 1]` are distinct groups sharing the index `0`, so the
groups do not form a partition. -/
theorem jumpGroups_not_pairwise_disjoint :
    ¬ (∀ g₁ ∈ jumpGroups 37, ∀ g₂ ∈ jumpGroups 37, g₁ = g₂ ∨ ∀ i ∈ g₁, i ∉ g₂) := by
  intro h
  have h01 : [0, 1] ∈ jumpGroups 37 := by decide
  have hfull : List.range 37 ∈ jumpGroups 37 := by decide
  rcases h (List.range 37) hfull [0, 1] h01 with heq | hdisj
  · exact absurd (congrArg List.length heq) (by decide)
  · exact hdisj 0 (by decide) (by decide)

/-- C6 (amended): every parameter index `0 ≤ i < ndim` belongs to some jump
group — the leading group `range(0, ndim)` already spans all coordinates — so
the groups cover the coordinate space, though they are not pairwise
disjoint. -/
theorem jumpGroups_cover (ndim i : Nat) (h : i < ndim) :
    ∃ g ∈ jumpGroups ndim, i ∈ g := by
  exact ⟨List.range ndim, by simp [jumpGroups], List.mem_range.mpr h⟩

/-- C6 (witness): coverage instantiated at `ndim = 37`, index `5`. -/
theorem jumpGroups_cover_witness : ∃ g ∈ jumpGroups 37, 5 ∈ g :=
  jumpGroups_cover 37 5 (by decide)

/-- C9: the pair groups built by `zip(range(0,ndim,2), range(1,ndim,2))` cover
exactly the indices below `2·⌊ndim/2⌋`; hence for odd `ndim` the last index
`ndim−1` lies in no pair group; the hardcoded singleton `[36]` is a valid
coordinate index exactly when `ndim ≥ 37`, and it covers the leftover index
exactly when `ndim = 37`. -/
theorem pairGroups_coverage (ndim : Nat) (h : Odd ndim) :
    (∀ j : Nat, (∃ g ∈ pairGroups ndim, j ∈ g) ↔ j < 2 * (ndim / 2))
    ∧ (¬ ∃ g ∈ pairGroups ndim, (ndim - 1) ∈ g)
    ∧ (36 < ndim ↔ 37 ≤ ndim)
    ∧ ((ndim - 1) ∈ ([36] : List Nat) ↔ ndim = 37) := by
  obtain ⟨k, hk⟩ := h
  refine ⟨mem_pairGroups_iff ndim, ?_, by omega, ?_⟩
  · rw [mem_pairGroups_iff]
    omega
  · simp only [List.mem_singleton]
    omega

/-- C9 (witness): instantiated at the notebook's `ndim = 37`: index 4 is in a
pair group, the last index 36 is in none. -/
theorem pairGroups_coverage_witness :
    ((∃ g ∈ pairGroups 37, 4 ∈ g) ↔ 4 < 2 * (37 / 2))
    ∧ ¬ ∃ g ∈ pairGroups 37, 36 ∈ g := by
  have h := pairGroups_coverage 37 ⟨18, by decide⟩
  exact ⟨h.1 4, h.2.1⟩

/-- C7: every key produced by `get_noise_from_pal2` is the pulsar name, a
non-empty backend flag when the line's arm extracts one, and the quantity
name, joined by single underscores: `{series}_{subset}_{quantity}` with a
non-empty flag, `{series}_{quantity}` otherwise. -/
theorem getNoiseFromPal2_key_convention (psrname : List Char) (ls : List (List Char))
    (k v : List Char) (hk : (k, v) ∈ getNoiseFromPal2 psrname ls) :
    ∃ par ∈ [kwEfac, parLog10Equad, parLog10Ecorr, parLog10A, parGamma],
      (∃ flag, flag ≠ [] ∧ k = psrname ++ underscore ++ flag ++ underscore ++ par)
      ∨ k = psrname ++ underscore ++ par := by
  induction ls with
  | nil => simp [getNoiseFromPal2] at hk
  | cons line rest ih =>
    unfold getNoiseFromPal2 at hk
    have shape : ∀ flag par, k = pal2Key psrname flag par →
        (∃ fl, fl ≠ [] ∧ k = psrname ++ underscore ++ fl ++ underscore ++ par)
        ∨ k = psrname ++ underscore ++ par := by
      intro flag par hkey
      rcases pal2Key_shape psrname flag par with ⟨hne, heq⟩ | ⟨_, heq⟩
      · exact Or.inl ⟨flag, hne, hkey.trans heq⟩
      · exact Or.inr (hkey.trans heq)
    split at hk
    · rcases List.mem_cons.mp hk with heq | hmem
      · exact ⟨kwEfac, by simp, shape _ _ (Prod.ext_iff.mp heq).1⟩
      · exact ih hmem
    · split at hk
      · rcases List.mem_cons.mp hk with heq | hmem
        · exact ⟨parLog10Equad, by simp, shape _ _ (Prod.ext_iff.mp heq).1⟩
        · exact ih hmem
      · split at hk
        · rcases List.mem_cons.mp hk with heq | hmem
          · exact ⟨parLog10Ecorr, by simp, shape _ _ (Prod.ext_iff.mp heq).1⟩
          · exact ih hmem
        · split at hk
          · rcases List.mem_cons.mp hk with heq | hmem
            · exact ⟨parLog10A, by simp, shape [] _ (Prod.ext_iff.mp heq).1⟩
            · exact ih hmem
          · split at hk
            · rcases List.mem_cons.mp hk with heq | hmem
              · exact ⟨parGamma, by simp, shape [] _ (Prod.ext_iff.mp heq).1⟩
              · exact ih hmem
            · simp at hk

/-- C7 (witness): on a concrete two-line file for pulsar `B1855+09` with a
per-backend EFAC line and a red-noise amplitude line, the produced EFAC key
follows the three-part convention. -/
theorem getNoiseFromPal2_key_convention_witness :
    ∃ par ∈ [kwEfac, parLog10Equad, parLog10Ecorr, parLog10A, parGamma],
      (∃ flag, flag ≠ [] ∧
        "B1855+09_430_ASP_efac".toList
          = "B1855+09".toList ++ underscore ++ flag ++ underscore ++ par)
      ∨ "B1855+09_430_ASP_efac".toList = "B1855+09".toList ++ underscore ++ par :=
  getNoiseFromPal2_key_convention "B1855+09".toList
    ["efac-430_ASP 1.2".toList, "RN-Amplitude -14.5".toList]
    "B1855+09_430_ASP_efac".toList "1.2".toList (by decide)

/-- C8: `get_noise_from_pal2` breaks at the first line recognized by none of
its arms: the result of processing `pre ++ bad :: rest` never includes the
bad line or anything after it, for any `rest` — including later lines that
would have been recognized. -/
theorem getNoiseFromPal2_break (psrname bad : List Char)
    (hbad : recognizedLine bad = false) (pre rest : List (List Char)) :
    getNoiseFromPal2 psrname (pre ++ bad :: rest) = getNoiseFromPal2 psrname pre := by
  simp only [recognizedLine, Bool.or_eq_false_iff] at hbad
  obtain ⟨⟨⟨⟨h₁, h₂⟩, h₃⟩, h₄⟩, h₅⟩ := hbad
  induction pre with
  | nil =>
    simp only [List.nil_append]
    unfold getNoiseFromPal2
    simp [h₁, h₂, h₃, h₄, h₅]
  | cons line pre' ih =>
    simp only [List.cons_append]
    unfold getNoiseFromPal2
    split
    · rw [ih]
    · split
      · rw [ih]
      · split
        · rw [ih]
        · split
          · rw [ih]
          · split
            · rw [ih]
            · rfl

/-- C8 (witness): a concrete file where an unrecognized second line hides a
later EFAC line that would otherwise have matched. -/
theorem getNoiseFromPal2_break_witness :
    getNoiseFromPal2 "B1855+09".toList
        (["efac-430_ASP 1.2".toList]
          ++ "some unrecognized line".toList :: ["efac-L-wide 0.9".toList])
      = getNoiseFromPal2 "B1855+09".toList ["efac-430_ASP 1.2".toList] :=
  getNoiseFromPal2_break "B1855+09".toList "some unrecognized line".toList (by decide)
    ["efac-430_ASP 1.2".toList] ["efac-L-wide 0.9".toList]

/-- C3: a `LinearExp(low, high)` parameter's density equals
`ln(10)·10^x / (10^high − 10^low)` for every `x` in `[low, high]` and `0`
outside; consequently it integrates to `1` over `[low, high]`. -/
theorem linearExp_density (low high : ℝ) (h : low < high) :
    (∀ x, low ≤ x → x ≤ high →
      linearExpPdf low high x
        = Real.log 10 * (10 : ℝ) ^ x / ((10 : ℝ) ^ high - (10 : ℝ) ^ low))
    ∧ (∀ x, x < low ∨ high < x → linearExpPdf low high x = 0)
    ∧ (∫ x in low..high, linearExpPdf low high x) = 1 := by
  have hD : (0 : ℝ) < (10 : ℝ) ^ high - (10 : ℝ) ^ low := by
    have hlt : (10 : ℝ) ^ low < (10 : ℝ) ^ high :=
      (Real.rpow_lt_rpow_left_iff (by norm_num)).mpr h
    linarith
  refine ⟨?_, ?_, ?_⟩
  · intro x h1 h2
    rw [linearExpPdf, if_pos ⟨h1, h2⟩]
  · intro x hx
    rw [linearExpPdf, if_neg]
    rintro ⟨h1, h2⟩
    rcases hx with hx | hx <;> linarith
  · have hcong : (∫ x in low..high, linearExpPdf low high x)
        = ∫ x in low..high,
            ((10 : ℝ) ^ x * Real.log 10) * (1 / ((10 : ℝ) ^ high - (10 : ℝ) ^ low)) := by
      apply intervalIntegral.integral_congr
      intro x hx
      rw [Set.uIcc_of_le h.le] at hx
      rw [linearExpPdf, if_pos ⟨hx.1, hx.2⟩]
      ring
    have hderiv : ∀ x ∈ Set.uIcc low high,
        HasDerivAt (fun y => (10 : ℝ) ^ y) ((10 : ℝ) ^ x * Real.log 10) x :=
      fun x _ => (Real.hasStrictDerivAt_const_rpow (by norm_num) x).hasDerivAt
    have hcont : Continuous fun x : ℝ => (10 : ℝ) ^ x * Real.log 10 := by
      have h10 : Continuous fun x : ℝ => (10 : ℝ) ^ x := by
        simp only [Real.rpow_def_of_pos (show (0 : ℝ) < 10 by norm_num)]
        exact Real.continuous_exp.comp (continuous_const.mul continuous_id)
      exact h10.mul continuous_const
    rw [hcong, intervalIntegral.integral_mul_const,
      intervalIntegral.integral_eq_sub_of_hasDerivAt hderiv
        (hcont.intervalIntegrable low high)]
    field_simp

/-- C3 (witness): the `LinearExp(0, 1)` density integrates to `1`. -/
theorem linearExp_density_witness :
    ((0 : ℝ) < 1) ∧ (∫ x in (0 : ℝ)..1, linearExpPdf 0 1 x) = 1 :=
  ⟨by norm_num, (linearExp_density 0 1 (by norm_num)).2.2⟩

/-- A finite log-density value is never `⊥` and never `⊤`. -/
theorem logDensity_ne_top (p : Prior) (x : ℝ) : logDensity p x ≠ ⊤ := by
  unfold logDensity
  split
  · exact EReal.coe_ne_top _
  · exact bot_ne_top

/-- C2: `get_lnprior` returns -infinity iff at least one registry parameter's
value lies outside its declared prior support; otherwise it returns exactly
the sum of the per-parameter log densities.  Out-of-support values surface
only as the -infinity return value of the total function, never as an
exception. -/
theorem get_lnprior_spec (ps : List Param) (x : String → ℝ) :
    (get_lnprior ps x = ⊥ ↔ ∃ p ∈ ps, ¬ inSupport p.prior (x p.name))
    ∧ ((∀ p ∈ ps, inSupport p.prior (x p.name)) →
        get_lnprior ps x
          = (((ps.map fun p => realLogPdf p.prior (x p.name)).sum : ℝ) : EReal)) := by
  induction ps with
  | nil =>
    constructor
    · simp [get_lnprior]
    · intro h
      simp [get_lnprior]
  | cons p ps ih =>
    have hcons : get_lnprior (p :: ps) x
        = logDensity p.prior (x p.name) + get_lnprior ps x := by
      simp [get_lnprior]
    constructor
    · rw [hcons]
      by_cases hsup : inSupport p.prior (x p.name)
      · rw [logDensity, if_pos hsup, EReal.add_eq_bot_iff]
        simp only [EReal.coe_ne_bot, false_or]
        rw [ih.1]
        constructor
        · rintro ⟨q, hq, hqs⟩
          exact ⟨q, List.mem_cons_of_mem p hq, hqs⟩
        · rintro ⟨q, hq, hqs⟩
          rcases List.mem_cons.mp hq with rfl | hq'
          · exact absurd hsup hqs
          · exact ⟨q, hq', hqs⟩
      · rw [logDensity, if_neg hsup]
        simp only [EReal.bot_add, true_iff]
        exact ⟨p, List.mem_cons_self p ps, hsup⟩
    · intro hall
      have hsup := hall p (List.mem_cons_self p ps)
      rw [hcons, logDensity, if_pos hsup,
        ih.2 fun q hq => hall q (List.mem_cons_of_mem p hq)]
      rw [← EReal.coe_add]
      simp

/-- C4: `get_lnlikelihood` fails with a `MissingParameterError` iff some
required parameter cannot be resolved — a free parameter absent from `x`, or
a `Constant` without a fixed value absent from the defaults; otherwise it
returns normally. -/
theorem get_lnlikelihood_missing (ps : List PtaParam) (lnlike : List ℝ → ℝ)
    (x defaults : String → Option ℝ) :
    ((∃ e, get_lnlikelihood ps lnlike x defaults = .error e) ↔
      ∃ p ∈ ps, (∃ n, p = .free n ∧ x n = none)
        ∨ (∃ n, p = .const n none ∧ defaults n = none))
    ∧ ((¬ ∃ p ∈ ps, (∃ n, p = .free n ∧ x n = none)
        ∨ (∃ n, p = .const n none ∧ defaults n = none)) →
      ∃ r, get_lnlikelihood ps lnlike x defaults = .ok r) := by
  have key : ∀ qs : List PtaParam,
      (∃ e, resolveAll x defaults qs = .error e) ↔
        ∃ p ∈ qs, (∃ n, p = .free n ∧ x n = none)
          ∨ (∃ n, p = .const n none ∧ defaults n = none) := by
    intro qs
    induction qs with
    | nil => simp [resolveAll]
    | cons p ps ih =>
      unfold resolveAll
      constructor
      · rintro ⟨e, he⟩
        rcases hres : resolveParam x defaults p with _ | v
        · refine ⟨p, List.mem_cons_self p ps, ?_⟩
          match p, hres with
          | .free n, hres => exact Or.inl ⟨n, rfl, hres⟩
          | .const n none, hres => exact Or.inr ⟨n, rfl, hres⟩
        · rw [hres] at he
          rcases hrec : resolveAll x defaults ps with e' | vs
          · obtain ⟨q, hq, hcase⟩ := ih.1 ⟨e', hrec⟩
            exact ⟨q, List.mem_cons_of_mem p hq, hcase⟩
          · rw [hrec] at he
            exact absurd he (by simp [Except.map])
      · rintro ⟨q, hq, hcase⟩
        rcases List.mem_cons.mp hq with rfl | hq'
        · have hres : resolveParam x defaults q = none := by
            rcases hcase with ⟨n, rfl, hn⟩ | ⟨n, rfl, hn⟩
            · exact hn
            · exact hn
          rw [hres]
          exact ⟨.missing q.name, rfl⟩
        · obtain ⟨e', hrec⟩ := (ih.2 ⟨q, hq', hcase⟩ :)
          rcases hres : resolveParam x defaults p with _ | v
          · exact ⟨.missing p.name, rfl⟩
          · rw [hrec]
            exact ⟨e', by simp [Except.map]⟩
  constructor
  · rw [show (∃ e, get_lnlikelihood ps lnlike x defaults = .error e)
        ↔ ∃ e, resolveAll x defaults ps = .error e from ?_]
    · exact key ps
    · unfold get_lnlikelihood
      rcases resolveAll x defaults ps with e | vs
      · simp [Except.map]
      · simp [Except.map]
  · intro hnone
    unfold get_lnlikelihood
    rcases hres : resolveAll x defaults ps with e | vs
    · exact absurd ((key ps).1 ⟨e, hres⟩) hnone
    · exact ⟨lnlike vs, by simp [Except.map]⟩

/-- C5: a single mutation of a shared parameter instance propagates to every
series referencing it — after `setParam heap g v`, a referencing series'
contribution no longer depends on the pre-mutation value at `g`, only on the
one new value `v` (so all referencing series see the identical new value) —
while a mutation of an instance private to one series leaves every
non-referencing series' contribution unchanged. -/
theorem sharedParam_propagates (pta : List GPSeries) (heap : Nat → ℝ)
    (g : Nat) (v : ℝ) :
    (∀ s ∈ pta, g ∈ s.paramIds → ∀ heap' : Nat → ℝ,
      (∀ j, j ≠ g → heap j = heap' j) →
        seriesContribution s (setParam heap g v)
          = seriesContribution s (setParam heap' g v))
    ∧ (∀ s ∈ pta, g ∉ s.paramIds →
        seriesContribution s (setParam heap g v) = seriesContribution s heap) := by
  constructor
  · intro s _ _ heap' hagree
    unfold seriesContribution
    congr 1
    apply List.map_congr_left
    intro j _
    by_cases hj : j = g
    · subst hj
      simp [setParam]
    · simp [setParam, Function.update_noteq hj, hagree j hj]
  · intro s _ hg
    unfold seriesContribution
    congr 1
    apply List.map_congr_left
    intro j hj
    have : j ≠ g := fun h => hg (h ▸ hj)
    simp [setParam, Function.update_noteq this]

/-- C5 (witness): two concrete series sharing instance `0` (the common-process
amplitude) with instance `1` private to the first series; instantiated with
concrete heaps. -/
theorem sharedParam_propagates_witness :
    (seriesContribution ⟨[0, 1], fun l => l.sum⟩
        (setParam (fun _ => (1 : ℝ)) 0 5)
      = seriesContribution ⟨[0, 1], fun l => l.sum⟩
        (setParam (fun _ => (1 : ℝ)) 0 5))
    ∧ (seriesContribution ⟨[0], fun l => l.sum⟩
        (setParam (fun _ => (1 : ℝ)) 1 5)
      = seriesContribution ⟨[0], fun l => l.sum⟩ (fun _ => (1 : ℝ))) := by
  have h := sharedParam_propagates
    [⟨[0, 1], fun l => l.sum⟩, ⟨[0], fun l => l.sum⟩] (fun _ => (1 : ℝ)) 0 5
  have h' := sharedParam_propagates
    [⟨[0, 1], fun l => l.sum⟩, ⟨[0], fun l => l.sum⟩] (fun _ => (1 : ℝ)) 1 5
  refine ⟨?_, ?_⟩
  · exact h.1 ⟨[0, 1], fun l => l.sum⟩ (by simp) (by simp) (fun _ => (1 : ℝ))
      (fun j _ => rfl)
  · exact h'.2 ⟨[0], fun l => l.sum⟩ (by simp) (by simp)

/-- `rᵀ (Bᵀ M B) r = (B r)ᵀ M (B r)`: pushing a congruence through a
quadratic form. -/
theorem quad_helper {n m : Type*} [Fintype n] [Fintype m]
    (B : Matrix m n ℝ) (M : Matrix m m ℝ) (r : n → ℝ) :
    r ⬝ᵥ ((Bᵀ * M * B) *ᵥ r) = (B *ᵥ r) ⬝ᵥ (M *ᵥ (B *ᵥ r)) := by
  rw [← Matrix.mulVec_mulVec, ← Matrix.mulVec_mulVec, Matrix.dotProduct_mulVec,
    Matrix.vecMul_transpose]

/-- C1: for every residual vector `r`, basis `F`, positive-definite prior
covariance `Φ` and positive-definite white-noise covariance `N`, the
Woodbury-form log-likelihood equals the brute-force dense-covariance
log-likelihood exactly. -/
theorem woodbury_eq_dense {n m : Type*} [Fintype n] [Fintype m]
    [DecidableEq n] [DecidableEq m]
    (r : n → ℝ) (F : Matrix n m ℝ) (Φ : Matrix m m ℝ) (N : Matrix n n ℝ)
    (hN : N.PosDef) (hΦ : Φ.PosDef) :
    woodburyLnlike r F Φ N = denseLnlike r F Φ N := by
  have hFt : ∀ (A : Matrix n m ℝ), Aᴴ = Aᵀ := fun A =>
    Matrix.conjTranspose_eq_transpose_of_trivial A
  have hSpd : (gpSigma F Φ N).PosDef := by
    have h1 : (Fᵀ * N⁻¹ * F).PosSemidef := by
      have h := (hN.inv.posSemidef).conjTranspose_mul_mul_same F
      rwa [hFt] at h
    exact hΦ.inv.add_posSemidef h1
  have hCpd : (N + F * Φ * Fᵀ).PosDef := by
    have h2 : (F * Φ * Fᵀ).PosSemidef := by
      have h := hΦ.posSemidef.mul_mul_conjTranspose_same F
      rwa [hFt] at h
    exact hN.add_posSemidef h2
  have hdet : (N + F * Φ * Fᵀ).det = N.det * ((gpSigma F Φ N).det * Φ.det) := by
    have h1 : (N + (F * Φ) * Fᵀ).det
        = N.det * (1 + Fᵀ * N⁻¹ * (F * Φ)).det :=
      Matrix.det_add_mul (F * Φ) Fᵀ hN.det_pos.ne'.isUnit
    have h2 : gpSigma F Φ N * Φ = 1 + Fᵀ * N⁻¹ * (F * Φ) := by
      rw [gpSigma, Matrix.add_mul, Matrix.nonsing_inv_mul Φ hΦ.det_pos.ne'.isUnit,
        Matrix.mul_assoc (Fᵀ * N⁻¹) F Φ]
    calc (N + F * Φ * Fᵀ).det = N.det * (1 + Fᵀ * N⁻¹ * (F * Φ)).det := by
          rw [← h1, Matrix.mul_assoc]
      _ = N.det * (gpSigma F Φ N * Φ).det := by rw [h2]
      _ = N.det * ((gpSigma F Φ N).det * Φ.det) := by rw [Matrix.det_mul]
  have hlog : Real.log (N + F * Φ * Fᵀ).det
      = Real.log N.det + Real.log Φ.det + Real.log (gpSigma F Φ N).det := by
    rw [hdet, Real.log_mul hN.det_pos.ne'
        (mul_ne_zero hSpd.det_pos.ne' hΦ.det_pos.ne'),
      Real.log_mul hSpd.det_pos.ne' hΦ.det_pos.ne']
    ring
  have hinv : (N + F * Φ * Fᵀ)⁻¹
      = N⁻¹ - N⁻¹ * F * (gpSigma F Φ N)⁻¹ * Fᵀ * N⁻¹ := by
    have h := Matrix.add_mul_mul_inv_eq_sub N F Φ Fᵀ hN.isUnit hΦ.isUnit
      (by rw [← gpSigma]; exact hSpd.isUnit)
    rw [h, gpSigma]
  have hNinvT : N⁻¹ᵀ = N⁻¹ := by
    have h := hN.inv.isHermitian
    rwa [Matrix.IsHermitian, Matrix.conjTranspose_eq_transpose_of_trivial] at h
  have hBt : (Fᵀ * N⁻¹)ᵀ = N⁻¹ * F := by
    rw [Matrix.transpose_mul, Matrix.transpose_transpose, hNinvT]
  have hquad : r ⬝ᵥ ((N⁻¹ * F * (gpSigma F Φ N)⁻¹ * Fᵀ * N⁻¹) *ᵥ r)
      = ((Fᵀ * N⁻¹) *ᵥ r) ⬝ᵥ ((gpSigma F Φ N)⁻¹ *ᵥ ((Fᵀ * N⁻¹) *ᵥ r)) := by
    rw [← quad_helper (Fᵀ * N⁻¹) ((gpSigma F Φ N)⁻¹) r, hBt]
    congr 1
    rw [Matrix.mul_assoc (N⁻¹ * F * (gpSigma F Φ N)⁻¹) Fᵀ N⁻¹]
  rw [woodburyLnlike, denseLnlike, hinv, hlog, Matrix.sub_mulVec,
    Matrix.dotProduct_sub, hquad]
  ring

/-- C1 (witness): instantiated on a one-observation, one-basis-column series
with identity covariances. -/
theorem woodbury_eq_dense_witness :
    woodburyLnlike (fun _ : Fin 1 => (0 : ℝ)) (0 : Matrix (Fin 1) (Fin 1) ℝ) 1 1
      = denseLnlike (fun _ : Fin 1 => (0 : ℝ)) (0 : Matrix (Fin 1) (Fin 1) ℝ) 1 1 :=
  woodbury_eq_dense _ _ _ _ Matrix.PosDef.one Matrix.PosDef.one

/-- C10: on a two-sample chain `[a, b]` the reported upper limit equals `10`
raised to the `q = 0.95` percentile — the point only `0.95/100` of the way
from `a` to `b` — whereas the 95th percentile a 95% upper limit requires sits
`95/100` of the way up, and the reported value differs from `10` raised to
that 95th percentile. -/
theorem upperLimit_sub_percentile (a b : ℚ) (hab : a < b) :
    upperLimit [a, b] = (10 : ℝ) ^ (((a + (19 / 2000) * (b - a) : ℚ) : ℝ))
    ∧ npPercentile [a, b] 95 = a + (95 / 100) * (b - a)
    ∧ upperLimit [a, b] ≠ (10 : ℝ) ^ ((npPercentile [a, b] 95 : ℚ) : ℝ) := by
  have hsort : sortAsc [a, b] = [a, b] := by
    simp [sortAsc, insertSorted, hab.le]
  have h95 : npPercentile [a, b] 95 = a + (95 / 100) * (b - a) := by
    unfold npPercentile
    rw [hsort]
    norm_num
  have h095 : npPercentile [a, b] 0.95 = a + (19 / 2000) * (b - a) := by
    unfold npPercentile
    rw [hsort]
    norm_num
  refine ⟨by rw [upperLimit, h095], h95, ?_⟩
  rw [upperLimit, h095, h95]
  intro heq
  have hlt : ((a + 19 / 2000 * (b - a) : ℚ) : ℝ) < ((a + 95 / 100 * (b - a) : ℚ) : ℝ) := by
    rw [Rat.cast_lt]
    nlinarith
  have hmono := (Real.rpow_lt_rpow_left_iff (show (1 : ℝ) < 10 by norm_num)).mpr hlt
  rw [heq] at hmono
  exact lt_irrefl _ hmono

/-- C10 (witness): on the chain `[0, 1]` the reported value is not `10` to
the 95th percentile. -/
theorem upperLimit_sub_percentile_witness :
    upperLimit [0, 1] ≠ (10 : ℝ) ^ ((npPercentile [0, 1] 95 : ℚ) : ℝ) :=
  (upperLimit_sub_percentile 0 1 (by norm_num)).2.2

end Nano9
